import Mathlib

/-!
Verification development for the gophermart loyalty-points backend.

The Go sources are shallowly embedded: strings are lists of characters
(`Str`), money amounts are exact rationals (the store's fixed-point
numeric type), timestamps are natural numbers, and each repository or
service function becomes a pure Lean function over an explicit `Store`
state.  Fallible Go functions return `Except Err`.
-/

namespace Gophermart

/-- Go strings modelled as lists of Unicode characters. -/
abbrev Str := List Char

/-- Models `unicode.IsSpace` from the Go standard library: the
Unicode White_Space property (Latin-1 fast path plus the higher
White_Space code points). -/
def goIsSpace (c : Char) : Bool :=
  let n := c.toNat
  decide ((9 ≤ n ∧ n ≤ 13) ∨ n = 32 ∨ n = 0x85 ∨ n = 0xA0 ∨ n = 0x1680 ∨
    (0x2000 ≤ n ∧ n ≤ 0x200A) ∨ n = 0x2028 ∨ n = 0x2029 ∨ n = 0x202F ∨
    n = 0x205F ∨ n = 0x3000)

/-- Models `strings.TrimSpace`: drop leading and trailing white space. -/
def trimSpace (s : Str) : Str :=
  ((s.dropWhile goIsSpace).reverse.dropWhile goIsSpace).reverse

/-- The code-point ranges of the Unicode decimal digits (general
category Nd), as pairs of inclusive bounds. -/
def ndRanges : List (Nat × Nat) :=
  [(0x30, 0x39), (0x660, 0x669), (0x6F0, 0x6F9), (0x7C0, 0x7C9),
   (0x966, 0x96F), (0x9E6, 0x9EF), (0xA66, 0xA6F), (0xAE6, 0xAEF),
   (0xB66, 0xB6F), (0xBE6, 0xBEF), (0xC66, 0xC6F), (0xCE6, 0xCEF),
   (0xD66, 0xD6F), (0xDE6, 0xDEF), (0xE50, 0xE59), (0xED0, 0xED9),
   (0xF20, 0xF29), (0x1040, 0x1049), (0x1090, 0x1099), (0x17E0, 0x17E9),
   (0x1810, 0x1819), (0x1946, 0x194F), (0x19D0, 0x19D9), (0x1A80, 0x1A89),
   (0x1A90, 0x1A99), (0x1B50, 0x1B59), (0x1BB0, 0x1BB9), (0x1C40, 0x1C49),
   (0x1C50, 0x1C59), (0xA620, 0xA629), (0xA8D0, 0xA8D9), (0xA900, 0xA909),
   (0xA9D0, 0xA9D9), (0xA9F0, 0xA9F9), (0xAA50, 0xAA59), (0xABF0, 0xABF9),
   (0xFF10, 0xFF19), (0x104A0, 0x104A9), (0x10D30, 0x10D39),
   (0x11066, 0x1106F), (0x110F0, 0x110F9), (0x11136, 0x1113F),
   (0x111D0, 0x111D9), (0x112F0, 0x112F9), (0x11450, 0x11459),
   (0x114D0, 0x114D9), (0x11650, 0x11659), (0x116C0, 0x116C9),
   (0x11730, 0x11739), (0x118E0, 0x118E9), (0x11950, 0x11959),
   (0x11C50, 0x11C59), (0x11D50, 0x11D59), (0x11DA0, 0x11DA9),
   (0x11F50, 0x11F59), (0x16A60, 0x16A69), (0x16AC0, 0x16AC9),
   (0x16B50, 0x16B59), (0x1D7CE, 0x1D7FF), (0x1E140, 0x1E149),
   (0x1E2F0, 0x1E2F9), (0x1E4F0, 0x1E4F9), (0x1E950, 0x1E959),
   (0x1FBF0, 0x1FBF9)]

/-- Models `unicode.IsDigit` from the Go standard library: true exactly on
Unicode decimal digits (general category Nd). -/
def goIsDigit (c : Char) : Bool :=
  ndRanges.any fun r => decide (r.1 ≤ c.toNat) && decide (c.toNat ≤ r.2)

/-- UTF-8 encoding of a single character, as byte values. -/
def utf8Char (c : Char) : List Nat :=
  let n := c.toNat
  if n < 0x80 then [n]
  else if n < 0x800 then [0xC0 + n / 0x40, 0x80 + n % 0x40]
  else if n < 0x10000 then
    [0xE0 + n / 0x1000, 0x80 + (n / 0x40) % 0x40, 0x80 + n % 0x40]
  else
    [0xF0 + n / 0x40000, 0x80 + (n / 0x1000) % 0x40,
     0x80 + (n / 0x40) % 0x40, 0x80 + n % 0x40]

/-- The UTF-8 byte sequence of a string; Go indexes strings by byte. -/
def utf8 (s : Str) : List Nat := (s.map utf8Char).flatten

/-- The loop body of `Luhn` in `service/order.go`, processing the byte
sequence from the rightmost byte (head of the input list here) with the
alternating doubling flag.  `(b + 256 - 48) % 256` is Go's wrapping byte
subtraction `number[i] - '0'`. -/
def luhnAux : List Nat → Bool → Nat
  | [], _ => 0
  | b :: rest, dbl =>
    let d0 := (b + 256 - 48) % 256
    let d := if dbl then (if d0 * 2 > 9 then d0 * 2 - 9 else d0 * 2) else d0
    d + luhnAux rest (!dbl)

/-- `Luhn` from `service/order.go`: iterates the bytes of the string from
the end, doubling every second byte value. -/
def luhn (s : Str) : Bool := luhnAux (utf8 s).reverse false % 10 == 0

/-- `ValidateOrderNumber` from `service/order.go`; `true` models a `nil`
error.  Trims, rejects the empty string, rejects any rune that is not a
Unicode digit, then applies the byte-level Luhn check. -/
def validateOrderNumber (number : Str) : Bool :=
  let trimmed := trimSpace number
  if trimmed = [] then false
  else if trimmed.all goIsDigit then luhn trimmed
  else false

/-- The specification's Luhn rule on decimal digit values: doubling every
second digit from the right (head of the input list here), reducing
doubled digits above 9 by 9. -/
def luhnSpecAux : List Nat → Bool → Nat
  | [], _ => 0
  | d0 :: rest, dbl =>
    (if dbl then (if d0 * 2 > 9 then d0 * 2 - 9 else d0 * 2) else d0) +
      luhnSpecAux rest (!dbl)

/-- The specification's Luhn predicate on a list of decimal digit values,
most significant first. -/
def luhnSpec (digits : List Nat) : Bool := luhnSpecAux digits.reverse false % 10 == 0

/-- An ASCII decimal digit. -/
def isAsciiDigit (c : Char) : Prop := 48 ≤ c.toNat ∧ c.toNat ≤ 57

instance (c : Char) : Decidable (isAsciiDigit c) := by
  unfold isAsciiDigit; infer_instance

/-! ## Data model (repo/repo.go and the migration schema) -/

/-- The order status constants of `service/worker.go` and
`service/order.go`. -/
def statusNew : String := "NEW"

def statusProcessing : String := "PROCESSING"

def statusInvalid : String := "INVALID"

def statusProcessed : String := "PROCESSED"

/-- `repo.Order` from `repo/repo.go`. -/
structure Order where
  number : Str
  userId : Int
  status : String
  accrual : Option ℚ
  uploadedAt : Nat
  accrualApplied : Bool
deriving DecidableEq, Repr

/-- A `processing_queue` row: status plus nullable `last_check`. -/
structure QEntry where
  status : String
  lastCheck : Option Nat
deriving DecidableEq, Repr

/-- `repo.Withdrawal` from `repo/repo.go` (the generated `id` is the
list position). -/
structure Withdrawal where
  userId : Int
  orderNumber : Str
  sum : ℚ
  processedAt : Nat
deriving DecidableEq, Repr

/-- The sentinel errors of `repo/repo.go` and `service/order.go`. -/
inductive Err where
  | userNotFound
  | orderNotFound
  | orderExists
  | noQueueItems
  | insufficientFunds
  | invalidOrderNumber
  | orderOwnedByAnother
deriving DecidableEq, Repr

/-- The persistent store: the `users`, `orders`, `processing_queue` and
`withdrawals` tables.  `balances` and `withdrawnTotals` are the two
numeric columns of `users`, defaulting to 0 (the schema default). -/
structure Store where
  users : List Int
  balances : List (Int × ℚ)
  withdrawnTotals : List (Int × ℚ)
  orders : List (Str × Order)
  queue : List (Str × QEntry)
  withdrawals : List Withdrawal
deriving DecidableEq, Repr

/-! ### Association-list primitives -/

/-- First-match association-list lookup (a keyed SQL row read). -/
def lookupA {α β : Type} [DecidableEq α] : List (α × β) → α → Option β
  | [], _ => none
  | (k, v) :: rest, key => if k = key then some v else lookupA rest key

/-- Delete every row with the given key (SQL `DELETE ... WHERE key =`). -/
def eraseA {α β : Type} [DecidableEq α] (l : List (α × β)) (key : α) :
    List (α × β) :=
  l.filter fun p => p.1 ≠ key

/-- Overwrite the value stored at a key, inserting it if absent. -/
def setA {α β : Type} [DecidableEq α] (l : List (α × β)) (key : α) (v : β) :
    List (α × β) :=
  (key, v) :: eraseA l key

/-- Update in place every row with the given key (SQL `UPDATE ... WHERE
key =`; a no-op when the key is absent). -/
def updA {α β : Type} [DecidableEq α] (l : List (α × β)) (key : α)
    (f : β → β) : List (α × β) :=
  l.map fun p => if p.1 = key then (p.1, f p.2) else p

/-- Read a numeric `users` column, defaulting to 0. -/
def getQ (l : List (Int × ℚ)) (k : Int) : ℚ := (lookupA l k).getD 0

/-! ## Store operations (repo/order_pg.go, the withdraw repository, and
the in-memory repository of the service tests) -/

/-- `GetByNumber`: keyed read of an order row. -/
def getByNumber (s : Store) (number : Str) : Except Err Order :=
  match lookupA s.orders number with
  | none => .error .orderNotFound
  | some o => .ok o

/-- `CreateOrder`: insert of an order row; a primary-key collision is
surfaced as `ErrOrderExists`. -/
def createOrder (s : Store) (o : Order) : Except Err Store :=
  match lookupA s.orders o.number with
  | some _ => .error .orderExists
  | none => .ok { s with orders := s.orders ++ [(o.number, o)] }

/-- `UpsertProcessing`: insert a queue row with NULL `last_check`, or on
conflict update only the status, leaving `last_check` untouched. -/
def upsertProcessing (s : Store) (number : Str) (status : String) : Store :=
  match lookupA s.queue number with
  | none => { s with queue := s.queue ++ [(number, ⟨status, none⟩)] }
  | some _ =>
    { s with queue := updA s.queue number fun e => { e with status := status } }

/-- `UpdateProcessingStatus`: set a queue row's status and `last_check`
(SQL `UPDATE`, a no-op when the row is absent). -/
def updateProcessingStatus (s : Store) (number : Str) (status : String)
    (checkedAt : Nat) : Store :=
  { s with queue := updA s.queue number fun _ => ⟨status, some checkedAt⟩ }

/-- `DeleteProcessingEntry`: remove a queue row. -/
def deleteProcessingEntry (s : Store) (number : Str) : Store :=
  { s with queue := eraseA s.queue number }

/-- `PGOrderRepository.UpdateOrderStatus`: both SQL branches set
`accrual_applied = false` unconditionally; the accrual column is written
only when an accrual argument is present. -/
def updateOrderStatusPG (s : Store) (number : Str) (status : String)
    (accrual : Option ℚ) : Store :=
  { s with
    orders := updA s.orders number fun o =>
      match accrual with
      | some v => { o with status := status, accrual := some v, accrualApplied := false }
      | none => { o with status := status, accrualApplied := false } }

/-- `memoryOrderRepo.UpdateOrderStatus` from the service tests: errors on
a missing order, always overwrites the accrual pointer, and resets
`accrual_applied` only when the new status is not PROCESSED. -/
def updateOrderStatusMem (s : Store) (number : Str) (status : String)
    (accrual : Option ℚ) : Except Err Store :=
  match lookupA s.orders number with
  | none => .error .orderNotFound
  | some _ =>
    .ok { s with
      orders := updA s.orders number fun o =>
        { o with
          status := status, accrual := accrual,
          accrualApplied :=
            if status ≠ statusProcessed then false else o.accrualApplied } }

/-- `ApplyOrderAccrual` (identical in the PG and in-memory repositories):
transactional.  Reads the order row under lock; if already applied,
deletes the queue row and reports `false`; otherwise marks the order
PROCESSED with the given accrual, credits the owner's balance, deletes
the queue row and reports `true`. -/
def applyOrderAccrual (s : Store) (number : Str) (accrual : ℚ) :
    Except Err (Bool × Store) :=
  match lookupA s.orders number with
  | none => .error .orderNotFound
  | some o =>
    if o.accrualApplied then
      .ok (false, deleteProcessingEntry s number)
    else
      let s1 := { s with
        orders := updA s.orders number fun o =>
          { o with status := statusProcessed, accrual := some accrual,
                   accrualApplied := true } }
      let s2 := { s1 with
        balances := setA s1.balances o.userId (getQ s1.balances o.userId + accrual) }
      .ok (true, deleteProcessingEntry s2 number)

/-- Queue rows eligible for claiming: status NEW or PROCESSING. -/
def eligible (e : QEntry) : Bool :=
  e.status = statusNew ∨ e.status = statusProcessing

/-- NULL `last_check` sorts as the epoch (`COALESCE(last_check,
'epoch')` in the PG repository, `time.Unix(0,0)` in the in-memory one). -/
def checkKey : Option Nat → Nat
  | none => 0
  | some t => t

/-- The row selected by `ClaimNextForProcessing`: the first eligible
queue row with the smallest coalesced `last_check`. -/
def pickMin : List (Str × QEntry) → Option (Str × QEntry)
  | [] => none
  | p :: rest =>
    if eligible p.2 then
      match pickMin rest with
      | none => some p
      | some q =>
        if checkKey p.2.lastCheck ≤ checkKey q.2.lastCheck then some p else some q
    else pickMin rest

/-- `ClaimNextForProcessing`: atomically select the eligible queue row
with the oldest `last_check` (NULL oldest), set it to PROCESSING with
`last_check = now`, and return its number; `ErrNoQueueItems` when no row
is eligible. -/
def claimNextForProcessing (s : Store) (now : Nat) :
    Except Err (Str × Store) :=
  match pickMin s.queue with
  | none => .error .noQueueItems
  | some p => .ok (p.1, updateProcessingStatus s p.1 statusProcessing now)

/-- `PGWithdrawRepository.Withdraw`: transactional.  Locks the user row
and reads the balance (`ErrUserNotFound` when absent); fails with
`ErrInsufficientFunds` when `balance < amount`, leaving the store
unchanged; otherwise debits the balance, credits `withdrawn` and appends
one withdrawal row. -/
def withdraw (s : Store) (userID : Int) (order : Str) (amount : ℚ)
    (now : Nat) : Except Err Store :=
  if userID ∈ s.users then
    let bal := getQ s.balances userID
    if bal < amount then .error .insufficientFunds
    else
      .ok { s with
        balances := setA s.balances userID (bal - amount),
        withdrawnTotals :=
          setA s.withdrawnTotals userID (getQ s.withdrawnTotals userID + amount),
        withdrawals := s.withdrawals ++ [⟨userID, order, amount, now⟩] }
  else .error .userNotFound

/-! ## Order service (service/order.go) -/

/-- `OrderManager.SubmitOrder`: trim, validate, resolve ownership, create
the order with status NEW and enqueue it.  The `ErrOrderExists` branch is
the concurrent-race re-query of the Go code. -/
def submitOrder (s : Store) (userID : Int) (number : Str) (now : Nat) :
    Except Err (Bool × Store) :=
  let n := trimSpace number
  if validateOrderNumber n then
    match lookupA s.orders n with
    | some existing =>
      if existing.userId = userID then .ok (false, s)
      else .error .orderOwnedByAnother
    | none =>
      let o : Order :=
        { number := n, userId := userID, status := statusNew, accrual := none,
          uploadedAt := now, accrualApplied := false }
      match createOrder s o with
      | .error .orderExists =>
        match lookupA s.orders n with
        | none => .error .orderNotFound
        | some existing =>
          if existing.userId = userID then .ok (false, s)
          else .error .orderOwnedByAnother
      | .error e => .error e
      | .ok s1 => .ok (true, upsertProcessing s1 n statusNew)
  else .error .invalidOrderNumber

/-- The HTTP status `Handler.handleCreateOrder` writes for a
`SubmitOrder` outcome (handlers/gzip.go): 202 created, 200 already owned,
422 invalid, 409 owned by another, 500 otherwise. -/
def submitHTTPStatus (r : Except Err (Bool × Store)) : Nat :=
  match r with
  | .ok (true, _) => 202
  | .ok (false, _) => 200
  | .error .invalidOrderNumber => 422
  | .error .orderOwnedByAnother => 409
  | .error _ => 500

/-! ## Worker (service/worker.go) -/

/-- ASCII upper-casing of one character (the status strings the worker
compares are ASCII; models `strings.ToUpper`). -/
def asciiUpperChar (c : Char) : Char :=
  if 97 ≤ c.toNat ∧ c.toNat ≤ 122 then Char.ofNat (c.toNat - 32) else c

/-- Models `strings.ToUpper` on the decoded status string. -/
def asciiUpper (s : String) : String := String.mk (s.data.map asciiUpperChar)

/-- The outcome of one scoring request as seen by `processNumber`: a
decoded 200 body, a non-200 status code, or a transport error. -/
inductive ScoreResult where
  | ok200 (status : String) (accrual : Option ℚ)
  | httpCode (code : Nat)
  | transportErr
deriving DecidableEq, Repr

/-- `WorkerPool.processNumber`: the store effect of handling one claimed
number against one scoring response.  Transport errors and every non-200
status release the claim via `UpdateProcessingStatus(number, PROCESSING,
now)` (a 429 additionally moves the client's rate-limit deadline, which
is not store state).  A 200 body dispatches on the upper-cased status:
PROCESSED-with-accrual runs `ApplyOrderAccrual` (on error the worker
returns early with no further store effect); PROCESSED-without-accrual
and INVALID update the order row and then delete the queue row; anything
else updates the order row and re-releases the claim. -/
def processNumber (s : Store) (number : Str) (r : ScoreResult) (now : Nat) :
    Store :=
  match r with
  | .transportErr => updateProcessingStatus s number statusProcessing now
  | .httpCode _ => updateProcessingStatus s number statusProcessing now
  | .ok200 rawStatus accrual =>
    let status :=
      if asciiUpper rawStatus = "" then statusProcessing else asciiUpper rawStatus
    if status = statusProcessed then
      match accrual with
      | some a =>
        match applyOrderAccrual s number a with
        | .error _ => s
        | .ok (_, s1) => s1
      | none =>
        deleteProcessingEntry (updateOrderStatusPG s number status none) number
    else if status = statusInvalid then
      deleteProcessingEntry (updateOrderStatusPG s number status none) number
    else
      updateProcessingStatus (updateOrderStatusPG s number status accrual)
        number statusProcessing now

/-- The sequence of store states `processNumber` passes through, one per
completed store operation (each store call is its own transaction). -/
def processNumberStates (s : Store) (number : Str) (r : ScoreResult)
    (now : Nat) : List Store :=
  match r with
  | .transportErr => [updateProcessingStatus s number statusProcessing now]
  | .httpCode _ => [updateProcessingStatus s number statusProcessing now]
  | .ok200 rawStatus accrual =>
    let status :=
      if asciiUpper rawStatus = "" then statusProcessing else asciiUpper rawStatus
    if status = statusProcessed then
      match accrual with
      | some a =>
        match applyOrderAccrual s number a with
        | .error _ => []
        | .ok (_, s1) => [s1]
      | none =>
        let s1 := updateOrderStatusPG s number status none
        [s1, deleteProcessingEntry s1 number]
    else if status = statusInvalid then
      let s1 := updateOrderStatusPG s number status none
      [s1, deleteProcessingEntry s1 number]
    else
      let s1 := updateOrderStatusPG s number status accrual
      [s1, updateProcessingStatus s1 number statusProcessing now]

/-! ## Scoring client and worker pool (service/accrual.go, worker.go) -/

/-- `AccrualClient.SetRateLimitUntil`: the new value of the shared
deadline after publishing `t` against the current value (`t.After` is a
strict comparison). -/
def setRateLimitUntil (current t : Nat) : Nat :=
  if current < t then t else current

/-- The worker pool configuration of `NewWorkerPool`. -/
structure WorkerPoolCfg where
  workers : Int
  intervalMillis : Int
deriving DecidableEq, Repr

/-- `WorkerPool.Start`: the number of worker goroutines launched (and
`wg.Add` calls made) — zero when `workers <= 0`, in which case `Start`
returns before the loop and `Wait` returns immediately. -/
def startedWorkers (w : WorkerPoolCfg) : Nat :=
  if w.workers ≤ 0 then 0 else w.workers.toNat

/-- The combined store effect of running the launched workers, each
worker contributing an arbitrary store transformation. -/
def runPool (w : WorkerPoolCfg) (behavior : Nat → Store → Store)
    (s : Store) : Store :=
  (List.range (startedWorkers w)).foldl (fun acc i => behavior i acc) s

/-! ## The transition system: committed store transactions -/

/-- One committed service-level transaction: an order submission, a queue
claim, a worker handling of one scoring response, or a withdrawal.  A
failing operation commits nothing and leaves the store unchanged. -/
inductive SysOp where
  | submitOp (userID : Int) (number : Str) (now : Nat)
  | claimOp (now : Nat)
  | processOp (number : Str) (r : ScoreResult) (now : Nat)
  | withdrawOp (userID : Int) (order : Str) (amount : ℚ) (now : Nat)

/-- The store after one committed transaction. -/
def applyOp (s : Store) : SysOp → Store
  | .submitOp u n t =>
    match submitOrder s u n t with
    | .ok (_, s1) => s1
    | .error _ => s
  | .claimOp t =>
    match claimNextForProcessing s t with
    | .ok (_, s1) => s1
    | .error _ => s
  | .processOp n r t => processNumber s n r t
  | .withdrawOp u o a t =>
    match withdraw s u o a t with
    | .ok s1 => s1
    | .error _ => s

/-- The store after a sequence of committed transactions. -/
def runOps (s : Store) : List SysOp → Store
  | [] => s
  | op :: ops => runOps (applyOp s op) ops

/-- Every user balance is nonnegative. -/
def BalInv (s : Store) : Prop := ∀ u : Int, 0 ≤ getQ s.balances u

/-- Accrual amounts carried by a 200-PROCESSED response are nonnegative
(the hypothesis the balance invariant needs). -/
def respNonNeg : SysOp → Prop
  | .processOp _ (.ok200 _ (some a)) _ => 0 ≤ a
  | _ => True

/-- No queue row points at an INVALID order, nor at a PROCESSED order
whose accrual has been applied. -/
def QInv (s : Store) : Prop :=
  ∀ n e, lookupA s.queue n = some e →
    ∀ o, lookupA s.orders n = some o →
      o.status ≠ statusInvalid ∧ ¬(o.status = statusProcessed ∧ o.accrualApplied = true)

/-- The caller-side view of one withdrawal attempt: the resulting store
(unchanged on failure, since a failed transaction rolls back) and whether
it succeeded. -/
def tryWithdraw (s : Store) (userID : Int) (order : Str) (amount : ℚ)
    (now : Nat) : Store × Bool :=
  match withdraw s userID order amount now with
  | .ok s1 => (s1, true)
  | .error _ => (s, false)

/-! ### Concrete sample data used by witnesses and counterexamples -/

/-- Concrete store for the C7 witness: two queue rows, "1" checked at 5
and "2" never checked (NULL `last_check`, so oldest). -/
def storeC7 : Store :=
  { users := [], balances := [], withdrawnTotals := [],
    orders := [],
    queue := [(['1'], ⟨statusProcessing, some 5⟩), (['2'], ⟨statusNew, none⟩)],
    withdrawals := [] }

/-- The empty store, used as the C5 starting state. -/
def storeC5 : Store :=
  { users := [], balances := [], withdrawnTotals := [],
    orders := [], queue := [], withdrawals := [] }

/-- Concrete store for the C4 witness: user 1 with balance 100. -/
def storeC4 : Store :=
  { users := [1], balances := [(1, 100)], withdrawnTotals := [],
    orders := [], queue := [], withdrawals := [] }

/-- Concrete store for the C2 witness: user 7 with balance 3, one NEW
order "18" owned by user 7, still queued. -/
def storeC2 : Store :=
  { users := [7], balances := [(7, 3)], withdrawnTotals := [],
    orders := [(['1', '8'],
      { number := ['1', '8'], userId := 7, status := statusNew,
        accrual := none, uploadedAt := 0, accrualApplied := false })],
    queue := [(['1', '8'], ⟨statusNew, none⟩)], withdrawals := [] }

/-- Concrete store for the C3 counterexample: order "18" already
PROCESSED with its accrual applied. -/
def storeC3 : Store :=
  { users := [1], balances := [(1, 5)], withdrawnTotals := [],
    orders := [(['1', '8'],
      { number := ['1', '8'], userId := 1, status := statusProcessed,
        accrual := some 5, uploadedAt := 0, accrualApplied := true })],
    queue := [], withdrawals := [] }


/-! ## Association-list lemmas -/

section AssocLemmas

variable {α β : Type} [DecidableEq α]

@[simp]
theorem lookupA_nil (k : α) : lookupA ([] : List (α × β)) k = none := rfl

theorem lookupA_cons (p : α × β) (l : List (α × β)) (k : α) :
    lookupA (p :: l) k = if p.1 = k then some p.2 else lookupA l k := by
  cases p; rfl

theorem lookupA_append_of_none {l₁ : List (α × β)} {k : α}
    (h : lookupA l₁ k = none) (l₂ : List (α × β)) :
    lookupA (l₁ ++ l₂) k = lookupA l₂ k := by
  induction l₁ with
  | nil => simp
  | cons p rest ih =>
    rw [lookupA_cons] at h
    by_cases hk : p.1 = k
    · simp [hk] at h
    · rw [if_neg hk] at h
      simpa [lookupA_cons, hk] using ih h

theorem lookupA_append_left {l₁ : List (α × β)} {k : α} {v : β}
    (h : lookupA l₁ k = some v) (l₂ : List (α × β)) :
    lookupA (l₁ ++ l₂) k = some v := by
  induction l₁ with
  | nil => simp at h
  | cons p rest ih =>
    rw [lookupA_cons] at h
    by_cases hk : p.1 = k
    · rw [if_pos hk] at h
      simp [lookupA_cons, hk, h]
    · rw [if_neg hk] at h
      simpa [lookupA_cons, hk] using ih h

theorem lookupA_updA_self (l : List (α × β)) (k : α) (f : β → β) :
    lookupA (updA l k f) k = (lookupA l k).map f := by
  induction l with
  | nil => simp [updA]
  | cons p rest ih =>
    by_cases hk : p.1 = k
    · simp [updA, lookupA_cons, hk]
    · simpa [updA, lookupA_cons, hk] using ih

theorem lookupA_updA_ne (l : List (α × β)) {k m : α} (f : β → β)
    (h : m ≠ k) : lookupA (updA l k f) m = lookupA l m := by
  induction l with
  | nil => simp [updA]
  | cons p rest ih =>
    by_cases hk : p.1 = k
    · simpa [updA, lookupA_cons, hk, Ne.symm h] using ih
    · by_cases hm : p.1 = m
      · simp [updA, lookupA_cons, hk, hm, h]
      · simpa [updA, lookupA_cons, hk, hm] using ih

theorem lookupA_eraseA_self (l : List (α × β)) (k : α) :
    lookupA (eraseA l k) k = none := by
  induction l with
  | nil => simp [eraseA]
  | cons p rest ih =>
    by_cases hk : p.1 = k
    · simpa [eraseA, hk] using ih
    · simpa [eraseA, List.filter_cons, hk, lookupA_cons] using ih

theorem lookupA_eraseA_ne (l : List (α × β)) {k m : α} (h : m ≠ k) :
    lookupA (eraseA l k) m = lookupA l m := by
  induction l with
  | nil => simp [eraseA]
  | cons p rest ih =>
    by_cases hk : p.1 = k
    · simpa [eraseA, List.filter_cons, hk, lookupA_cons, Ne.symm h] using ih
    · by_cases hm : p.1 = m
      · simp [eraseA, List.filter_cons, hk, lookupA_cons, hm, h]
      · simpa [eraseA, List.filter_cons, hk, lookupA_cons, hm] using ih

theorem lookupA_setA_self (l : List (α × β)) (k : α) (v : β) :
    lookupA (setA l k v) k = some v := by
  simp [setA, lookupA_cons]

theorem lookupA_setA_ne (l : List (α × β)) {k m : α} (v : β) (h : m ≠ k) :
    lookupA (setA l k v) m = lookupA l m := by
  have : k ≠ m := fun hkm => h hkm.symm
  simp [setA, lookupA_cons, this, lookupA_eraseA_ne l h]

theorem lookupA_mem_of_nodup {l : List (α × β)} {p : α × β}
    (hmem : p ∈ l) (hnd : (l.map Prod.fst).Nodup) :
    lookupA l p.1 = some p.2 := by
  induction l with
  | nil => simp at hmem
  | cons q rest ih =>
    rw [List.map_cons, List.nodup_cons] at hnd
    rcases List.mem_cons.mp hmem with h | h
    · subst h; simp [lookupA_cons]
    · have hne : q.1 ≠ p.1 := by
        intro hq
        exact hnd.1 (hq ▸ List.mem_map_of_mem Prod.fst h)
      rw [lookupA_cons, if_neg hne]
      exact ih h hnd.2

end AssocLemmas

theorem getQ_setA_self (l : List (Int × ℚ)) (k : Int) (v : ℚ) :
    getQ (setA l k v) k = v := by
  simp [getQ, lookupA_setA_self]

theorem getQ_setA_ne (l : List (Int × ℚ)) {k m : Int} (v : ℚ) (h : m ≠ k) :
    getQ (setA l k v) m = getQ l m := by
  simp [getQ, lookupA_setA_ne l v h]

/-! ## ASCII facts about the Luhn embedding -/

theorem utf8Char_ascii {c : Char} (h : c.toNat < 128) : utf8Char c = [c.toNat] := by
  unfold utf8Char
  rw [if_pos h]

theorem utf8_ascii {s : Str} (h : ∀ c ∈ s, c.toNat < 128) :
    utf8 s = s.map Char.toNat := by
  induction s with
  | nil => rfl
  | cons c rest ih =>
    have hc := h c (List.mem_cons_self c rest)
    have hr := fun d hd => h d (List.mem_cons_of_mem c hd)
    have ihr := ih hr
    simp [utf8] at ihr
    simp [utf8, utf8Char_ascii hc, ihr]

theorem luhnAux_digits {bytes : List Nat} (h : ∀ b ∈ bytes, 48 ≤ b ∧ b ≤ 57) :
    ∀ dbl, luhnAux bytes dbl = luhnSpecAux (bytes.map fun b => b - 48) dbl := by
  induction bytes with
  | nil => intro dbl; rfl
  | cons b rest ih =>
    intro dbl
    have hb := h b (List.mem_cons_self b rest)
    have hr := fun d hd => h d (List.mem_cons_of_mem b hd)
    have hmod : (b + 256 - 48) % 256 = b - 48 := by omega
    simp only [luhnAux, luhnSpecAux, List.map_cons, hmod]
    rw [ih hr]

theorem luhn_ascii_spec {s : Str} (h : ∀ c ∈ s, isAsciiDigit c) :
    luhn s = luhnSpec (s.map fun c => c.toNat - 48) := by
  unfold luhn luhnSpec
  have hlt : ∀ c ∈ s, c.toNat < 128 := fun c hc => by
    have := (h c hc).2; omega
  have hbytes : ∀ b ∈ (s.map Char.toNat).reverse, 48 ≤ b ∧ b ≤ 57 := by
    intro b hb
    rcases List.mem_map.mp (List.mem_reverse.mp hb) with ⟨c, hc, rfl⟩
    exact h c hc
  rw [utf8_ascii hlt, luhnAux_digits hbytes, ← List.map_reverse, List.map_map]
  rw [← List.map_reverse]
  rfl

theorem goIsDigit_ascii {c : Char} (h : c.toNat < 128) :
    goIsDigit c = true ↔ isAsciiDigit c := by
  simp only [goIsDigit, ndRanges, List.any_cons, List.any_nil, Bool.or_eq_true,
    Bool.and_eq_true, decide_eq_true_iff, isAsciiDigit, Bool.false_eq_true, or_false]
  omega

/-! ## Claim C6: order-number validation -/

/-- C6 (amended): `ValidateOrderNumber(s)` succeeds iff the trimmed `s`
is non-empty, every character is a Unicode decimal digit
(`unicode.IsDigit`), and the UTF-8 byte sequence passes the byte-level
Luhn computation; when the trimmed string consists of ASCII digits this
coincides with the specification's digit-value Luhn rule.  It is a pure
function (determinism is immediate in the embedding), accepts "0", and
rejects every string containing a character that is not a Unicode digit —
but acceptance is not limited to ASCII digits. -/
theorem validateOrderNumber_spec :
    (∀ s : Str, (∀ c ∈ trimSpace s, isAsciiDigit c) →
      (validateOrderNumber s = true ↔
        (trimSpace s ≠ [] ∧
          luhnSpec ((trimSpace s).map fun c => c.toNat - 48) = true))) ∧
    validateOrderNumber ['0'] = true ∧
    (∀ (s : Str) (c : Char), c ∈ trimSpace s → goIsDigit c = false →
      validateOrderNumber s = false) := by
  refine ⟨?_, by decide, ?_⟩
  · intro s hall
    have hd : (trimSpace s).all goIsDigit = true := by
      rw [List.all_eq_true]
      intro c hc
      have ha := hall c hc
      have hlt : c.toNat < 128 := by
        have := ha.2; omega
      exact (goIsDigit_ascii hlt).mpr ha
    unfold validateOrderNumber
    by_cases he : trimSpace s = []
    · simp [he]
    · simp only [he, if_false, hd, if_true, ne_eq, not_false_iff, true_and]
      rw [luhn_ascii_spec hall]
  · intro s c hc hnd
    unfold validateOrderNumber
    by_cases he : trimSpace s = []
    · simp [he]
    · cases hall : (trimSpace s).all goIsDigit with
      | false => simp [he, hall]
      | true =>
        have := List.all_eq_true.mp hall c hc
        rw [hnd] at this
        cases this

/-- C6 witness: "18" is accepted through the ASCII characterization, and
"1a" is rejected because it contains a non-digit character. -/
theorem validateOrderNumber_spec_witness :
    validateOrderNumber ['1', '8'] = true ∧
    validateOrderNumber ['1', 'a'] = false :=
  ⟨(validateOrderNumber_spec.1 ['1', '8'] (by decide)).mpr (by decide),
   validateOrderNumber_spec.2.2 ['1', 'a'] 'a' (by decide) (by decide)⟩

/-- C6 counterexample: the single-character string "٩" (U+0669,
ARABIC-INDIC DIGIT NINE) contains no ASCII digit, yet
`ValidateOrderNumber` accepts it: `unicode.IsDigit` admits every Unicode
decimal digit and the byte-level Luhn sum of its UTF-8 encoding
(0xD9 0xA9) is 450 ≡ 0 (mod 10).  This refutes the claim that acceptance
requires the string to consist only of ASCII digits. -/
theorem validateOrderNumber_accepts_nonascii :
    validateOrderNumber [Char.ofNat 0x669] = true ∧
    ¬isAsciiDigit (Char.ofNat 0x669) := by
  constructor
  · decide
  · decide

/-! ## Claim C9: the shared rate-limit deadline -/

/-- C9: `SetRateLimitUntil(t)` leaves the deadline at the maximum of the
old deadline and `t`; it changes the deadline exactly when `t` is later
than the current value, and never moves it earlier. -/
theorem setRateLimitUntil_monotonic_max (current t : Nat) :
    setRateLimitUntil current t = max current t ∧
    current ≤ setRateLimitUntil current t ∧
    (setRateLimitUntil current t ≠ current ↔ current < t) := by
  refine ⟨?_, ?_, ?_⟩ <;> by_cases h : current < t <;>
    simp [setRateLimitUntil, h] <;> omega

/-! ## Claim C10: starting a pool with a nonpositive worker count -/

/-- C10: when `workers <= 0`, `WorkerPool.Start` launches no worker task
(no `wg.Add` happens, so `Wait` returns immediately) and the pool leaves
any store untouched whatever the per-worker behavior would have been. -/
theorem workerPool_start_nonpositive_noop (w : WorkerPoolCfg)
    (h : w.workers ≤ 0) :
    startedWorkers w = 0 ∧
    ∀ (behavior : Nat → Store → Store) (s : Store), runPool w behavior s = s := by
  have h0 : startedWorkers w = 0 := by simp [startedWorkers, h]
  exact ⟨h0, fun behavior s => by simp [runPool, h0]⟩

/-- C10 witness: a pool configured with -3 workers spawns nothing and a
store passed through it is returned unchanged. -/
theorem workerPool_start_nonpositive_noop_witness :
    startedWorkers ⟨-3, 2000⟩ = 0 ∧
    runPool ⟨-3, 2000⟩
      (fun i s => updateProcessingStatus s ['1', '8'] statusProcessing i)
      ⟨[1], [], [], [], [(['1', '8'], ⟨statusNew, none⟩)], []⟩ =
      ⟨[1], [], [], [], [(['1', '8'], ⟨statusNew, none⟩)], []⟩ := by
  have h := workerPool_start_nonpositive_noop ⟨-3, 2000⟩ (by decide)
  exact ⟨h.1, h.2 _ _⟩

/-! ## Claim C2: exactly-once accrual application -/

/-- C2: on an order with `accrual_applied=false`, `apply_accrual(number,
a)` marks it PROCESSED with accrual `a` and the applied flag set, credits
the owner's balance by `a`, deletes the queue row and returns true; on
any order with the flag already set it returns false, deletes the queue
row if present, and leaves every order row and every balance unchanged —
so repeated calls credit the balance at most once. -/
theorem applyOrderAccrual_exactly_once (s : Store) (n : Str) (a : ℚ)
    (o : Order) (ho : lookupA s.orders n = some o)
    (hna : o.accrualApplied = false) :
    (∃ s1, applyOrderAccrual s n a = .ok (true, s1) ∧
      lookupA s1.orders n = some { o with
        status := statusProcessed, accrual := some a, accrualApplied := true } ∧
      (∀ m, m ≠ n → lookupA s1.orders m = lookupA s.orders m) ∧
      getQ s1.balances o.userId = getQ s.balances o.userId + a ∧
      (∀ v, v ≠ o.userId → getQ s1.balances v = getQ s.balances v) ∧
      lookupA s1.queue n = none) ∧
    (∀ (t : Store) (o2 : Order) (b : ℚ), lookupA t.orders n = some o2 →
      o2.accrualApplied = true →
      applyOrderAccrual t n b = .ok (false, deleteProcessingEntry t n) ∧
      (deleteProcessingEntry t n).orders = t.orders ∧
      (deleteProcessingEntry t n).balances = t.balances ∧
      lookupA (deleteProcessingEntry t n).queue n = none) := by
  constructor
  · have happ : applyOrderAccrual s n a = .ok (true,
        deleteProcessingEntry
          { s with
            orders := updA s.orders n fun x => { x with
              status := statusProcessed, accrual := some a,
              accrualApplied := true },
            balances :=
              setA s.balances o.userId (getQ s.balances o.userId + a) } n) := by
      unfold applyOrderAccrual
      rw [ho]
      simp [hna]
    refine ⟨_, happ, ?_, ?_, ?_, ?_, ?_⟩
    · simp only [deleteProcessingEntry]
      rw [lookupA_updA_self, ho]
      rfl
    · intro m hm
      simp only [deleteProcessingEntry]
      exact lookupA_updA_ne s.orders _ hm
    · simp only [deleteProcessingEntry]
      exact getQ_setA_self _ _ _
    · intro v hv
      simp only [deleteProcessingEntry]
      exact getQ_setA_ne _ _ hv
    · simp only [deleteProcessingEntry]
      exact lookupA_eraseA_self _ _
  · intro t o2 b ht happ
    refine ⟨?_, rfl, rfl, lookupA_eraseA_self _ _⟩
    unfold applyOrderAccrual
    rw [ht]
    simp [happ]

/-- C2 witness: applying accrual 5 to the unapplied order "18" succeeds,
credits user 7 by 5 and empties the queue row. -/
theorem applyOrderAccrual_exactly_once_witness :
    ∃ s1, applyOrderAccrual storeC2 ['1', '8'] 5 = .ok (true, s1) ∧
      getQ s1.balances 7 = getQ storeC2.balances 7 + 5 ∧
      lookupA s1.queue ['1', '8'] = none := by
  obtain ⟨⟨s1, he, _, _, hb, _, hq⟩, _⟩ :=
    applyOrderAccrual_exactly_once storeC2 ['1', '8'] 5
      { number := ['1', '8'], userId := 7, status := statusNew,
        accrual := none, uploadedAt := 0, accrualApplied := false }
      (by decide) rfl
  exact ⟨s1, he, hb, hq⟩

/-! ## Claim C3: update_order_status effects -/

/-- C3 counterexample: calling the PG `UpdateOrderStatus` with status =
PROCESSED on an order whose `accrual_applied` flag is set does NOT leave
the flag unchanged — both SQL branches write `accrual_applied = false`
unconditionally, so the flag flips from true to false.  This refutes the
claim that a PROCESSED call leaves `accrual_applied` untouched (the
in-memory test repository does behave as claimed). -/
theorem updateOrderStatusPG_processed_clears_flag :
    (lookupA storeC3.orders ['1', '8']).map Order.accrualApplied = some true ∧
    (lookupA (updateOrderStatusPG storeC3 ['1', '8'] statusProcessed
        none).orders ['1', '8']).map Order.accrualApplied = some false := by
  constructor
  · decide
  · decide

/-- C3 (amended): `update_order_status(number, status, accrual)` on an
existing order sets the status (and, when given, the accrual) as passed
and touches no other row; the in-memory repository resets
`accrual_applied` to false exactly when status ≠ PROCESSED, while the PG
repository resets it to false on every call — including calls with
status = PROCESSED — and leaves the stored accrual unchanged when no
accrual is passed. -/
theorem updateOrderStatus_effects (s : Store) (n : Str) (st : String)
    (acc : Option ℚ) (o : Order) (ho : lookupA s.orders n = some o) :
    (∃ s1, updateOrderStatusMem s n st acc = .ok s1 ∧
      lookupA s1.orders n = some { o with
        status := st, accrual := acc,
        accrualApplied :=
          if st ≠ statusProcessed then false else o.accrualApplied } ∧
      (∀ m, m ≠ n → lookupA s1.orders m = lookupA s.orders m) ∧
      s1.queue = s.queue ∧ s1.balances = s.balances) ∧
    (lookupA (updateOrderStatusPG s n st acc).orders n = some { o with
        status := st,
        accrual := match acc with | some v => some v | none => o.accrual,
        accrualApplied := false } ∧
      (∀ m, m ≠ n →
        lookupA (updateOrderStatusPG s n st acc).orders m = lookupA s.orders m) ∧
      (updateOrderStatusPG s n st acc).queue = s.queue ∧
      (updateOrderStatusPG s n st acc).balances = s.balances) := by
  constructor
  · have hmem : updateOrderStatusMem s n st acc = .ok { s with
        orders := updA s.orders n fun x => { x with
          status := st, accrual := acc,
          accrualApplied :=
            if st ≠ statusProcessed then false else x.accrualApplied } } := by
      unfold updateOrderStatusMem
      rw [ho]
    refine ⟨_, hmem, ?_, ?_, rfl, rfl⟩
    · rw [lookupA_updA_self, ho]
      rfl
    · intro m hm
      exact lookupA_updA_ne s.orders
        (fun x => { x with
          status := st, accrual := acc,
          accrualApplied :=
            if st ≠ statusProcessed then false else x.accrualApplied }) hm
  · refine ⟨?_, ?_, rfl, rfl⟩
    · unfold updateOrderStatusPG
      cases acc with
      | none =>
        rw [lookupA_updA_self, ho]
        rfl
      | some v =>
        rw [lookupA_updA_self, ho]
        rfl
    · intro m hm
      unfold updateOrderStatusPG
      exact lookupA_updA_ne s.orders
        (fun x =>
          match acc with
          | some v => { x with
              status := st, accrual := some v, accrualApplied := false }
          | none => { x with status := st, accrualApplied := false }) hm

/-- C3 witness: updating the PROCESSED-and-applied order "18" to status
REGISTERED through the in-memory repository resets the flag, and the PG
repository maps the same call to a cleared flag as well. -/
theorem updateOrderStatus_effects_witness :
    (∃ s1, updateOrderStatusMem storeC3 ['1', '8'] "REGISTERED" none = .ok s1 ∧
      lookupA s1.orders ['1', '8'] = some
        { number := ['1', '8'], userId := 1, status := "REGISTERED",
          accrual := none, uploadedAt := 0, accrualApplied := false }) := by
  obtain ⟨⟨s1, he, hl, _, _, _⟩, _⟩ :=
    updateOrderStatus_effects storeC3 ['1', '8'] "REGISTERED" none
      { number := ['1', '8'], userId := 1, status := statusProcessed,
        accrual := some 5, uploadedAt := 0, accrualApplied := true }
      (by decide)
  refine ⟨s1, he, ?_⟩
  rw [hl]
  decide

/-! ## Claim C4: the withdrawal transaction -/

/-- C4: `withdraw(user_id, order_number, amount)` fails with
InsufficientFunds — leaving balance, withdrawn and the withdrawals list
untouched, since the transaction rolls back — exactly when the user's
balance is below the amount; otherwise it debits the balance, credits
`withdrawn` and appends exactly one withdrawal row, all in one
transaction.  Consequently, from balance 100, of two withdrawals of 60
and 50 (run in either order) at most one succeeds and the final balance
is nonnegative. -/
theorem withdraw_insufficient_funds_spec (s : Store) (u : Int) (o : Str)
    (a : ℚ) (t : Nat) (hu : u ∈ s.users) :
    (withdraw s u o a t = .error .insufficientFunds ↔ getQ s.balances u < a) ∧
    (¬getQ s.balances u < a →
      ∃ s1, withdraw s u o a t = .ok s1 ∧
        getQ s1.balances u = getQ s.balances u - a ∧
        getQ s1.withdrawnTotals u = getQ s.withdrawnTotals u + a ∧
        s1.withdrawals = s.withdrawals ++ [⟨u, o, a, t⟩] ∧
        s1.orders = s.orders ∧ s1.queue = s.queue ∧ s1.users = s.users ∧
        (∀ v, v ≠ u → getQ s1.balances v = getQ s.balances v)) ∧
    (getQ s.balances u = 100 →
      ∀ (o1 o2 : Str) (t1 t2 : Nat),
        (¬((tryWithdraw s u o1 60 t1).2 = true ∧
           (tryWithdraw (tryWithdraw s u o1 60 t1).1 u o2 50 t2).2 = true) ∧
         0 ≤ getQ (tryWithdraw (tryWithdraw s u o1 60 t1).1 u o2 50
              t2).1.balances u) ∧
        (¬((tryWithdraw s u o2 50 t1).2 = true ∧
           (tryWithdraw (tryWithdraw s u o2 50 t1).1 u o1 60 t2).2 = true) ∧
         0 ≤ getQ (tryWithdraw (tryWithdraw s u o2 50 t1).1 u o1 60
              t2).1.balances u)) := by
  have hsucc : ∀ (oo : Str) (tt : Nat) (amt : ℚ), ¬getQ s.balances u < amt →
      withdraw s u oo amt tt = .ok { s with
        balances := setA s.balances u (getQ s.balances u - amt),
        withdrawnTotals :=
          setA s.withdrawnTotals u (getQ s.withdrawnTotals u + amt),
        withdrawals := s.withdrawals ++ [⟨u, oo, amt, tt⟩] } := by
    intro oo tt amt hlt
    unfold withdraw
    simp [hu, hlt]
  refine ⟨?_, ?_, ?_⟩
  · by_cases hba : getQ s.balances u < a
    · unfold withdraw
      simp [hu, hba]
    · rw [hsucc o t a hba]
      simp [hba]
  · intro hba
    refine ⟨_, hsucc o t a hba, getQ_setA_self _ _ _, getQ_setA_self _ _ _,
      rfl, rfl, rfl, rfl, ?_⟩
    intro v hv
    exact getQ_setA_ne _ _ hv
  · intro h100 o1 o2 t1 t2
    have h60 : ¬getQ s.balances u < 60 := by rw [h100]; norm_num
    have h50 : ¬getQ s.balances u < 50 := by rw [h100]; norm_num
    constructor
    · have hTry1 : tryWithdraw s u o1 60 t1 = ({ s with
          balances := setA s.balances u (getQ s.balances u - 60),
          withdrawnTotals :=
            setA s.withdrawnTotals u (getQ s.withdrawnTotals u + 60),
          withdrawals := s.withdrawals ++ [⟨u, o1, 60, t1⟩] }, true) := by
        unfold tryWithdraw
        rw [hsucc o1 t1 60 h60]
      rw [hTry1]
      have hbal1 : getQ (setA s.balances u (getQ s.balances u - 60)) u = 40 := by
        rw [getQ_setA_self, h100]
        norm_num
      have hTry2 : ∀ (oo : Str) (tt : Nat), tryWithdraw ({ s with
          balances := setA s.balances u (getQ s.balances u - 60),
          withdrawnTotals :=
            setA s.withdrawnTotals u (getQ s.withdrawnTotals u + 60),
          withdrawals := s.withdrawals ++ [⟨u, o1, 60, t1⟩] } : Store)
          u oo 50 tt = ({ s with
          balances := setA s.balances u (getQ s.balances u - 60),
          withdrawnTotals :=
            setA s.withdrawnTotals u (getQ s.withdrawnTotals u + 60),
          withdrawals := s.withdrawals ++ [⟨u, o1, 60, t1⟩] }, false) := by
        intro oo tt
        unfold tryWithdraw withdraw
        simp [hu, hbal1]
        norm_num
      rw [hTry2 o2 t2]
      refine ⟨by simp, ?_⟩
      simp [hbal1]
    · have hTry1 : tryWithdraw s u o2 50 t1 = ({ s with
          balances := setA s.balances u (getQ s.balances u - 50),
          withdrawnTotals :=
            setA s.withdrawnTotals u (getQ s.withdrawnTotals u + 50),
          withdrawals := s.withdrawals ++ [⟨u, o2, 50, t1⟩] }, true) := by
        unfold tryWithdraw
        rw [hsucc o2 t1 50 h50]
      rw [hTry1]
      have hbal1 : getQ (setA s.balances u (getQ s.balances u - 50)) u = 50 := by
        rw [getQ_setA_self, h100]
        norm_num
      have hTry2 : ∀ (oo : Str) (tt : Nat), tryWithdraw ({ s with
          balances := setA s.balances u (getQ s.balances u - 50),
          withdrawnTotals :=
            setA s.withdrawnTotals u (getQ s.withdrawnTotals u + 50),
          withdrawals := s.withdrawals ++ [⟨u, o2, 50, t1⟩] } : Store)
          u oo 60 tt = ({ s with
          balances := setA s.balances u (getQ s.balances u - 50),
          withdrawnTotals :=
            setA s.withdrawnTotals u (getQ s.withdrawnTotals u + 50),
          withdrawals := s.withdrawals ++ [⟨u, o2, 50, t1⟩] }, false) := by
        intro oo tt
        unfold tryWithdraw withdraw
        simp [hu, hbal1]
        norm_num
      rw [hTry2 o1 t2]
      refine ⟨by simp, ?_⟩
      simp [hbal1]

/-- C4 witness: user 1 with balance 100 — withdrawing 150 fails with
InsufficientFunds, withdrawing 30 succeeds leaving balance 70, and the
60/50 pair admits at most one success. -/
theorem withdraw_insufficient_funds_spec_witness :
    withdraw storeC4 1 ['9'] 150 0 = .error .insufficientFunds ∧
    (∃ s1, withdraw storeC4 1 ['9'] 30 0 = .ok s1 ∧
      getQ s1.balances 1 = getQ storeC4.balances 1 - 30) ∧
    ¬((tryWithdraw storeC4 1 ['9'] 60 0).2 = true ∧
      (tryWithdraw (tryWithdraw storeC4 1 ['9'] 60 0).1 1 ['8'] 50 1).2 = true) := by
  have hmem : (1 : Int) ∈ storeC4.users := by decide
  have h := withdraw_insufficient_funds_spec storeC4 1 ['9'] 150 0 hmem
  have h30 := withdraw_insufficient_funds_spec storeC4 1 ['9'] 30 0 hmem
  have hpair := (withdraw_insufficient_funds_spec storeC4 1 ['9'] 60 0
    hmem).2.2 (by decide) ['9'] ['8'] 0 1
  refine ⟨h.1.mpr (by decide), ?_, hpair.1.1⟩
  obtain ⟨s1, he, hb, _⟩ := h30.2.1 (by decide)
  exact ⟨s1, he, hb⟩

/-! ## Claim C5: idempotent order submission and ownership conflict -/

/-- C5: for a valid number with no existing order row, `SubmitOrder`
creates the order with status NEW, enqueues a NEW queue entry and
returns created=true (HTTP 202); resubmission by the same user returns
created=false with no error (HTTP 200); submission by any other user
fails with OrderOwnedByAnother (HTTP 409). -/
theorem submitOrder_idempotent_ownership (s : Store) (u : Int) (n : Str)
    (now now2 : Nat) (htrim : trimSpace n = n)
    (hval : validateOrderNumber n = true)
    (hnone : lookupA s.orders n = none) :
    ∃ s1, submitOrder s u n now = .ok (true, s1) ∧
      submitHTTPStatus (submitOrder s u n now) = 202 ∧
      lookupA s1.orders n = some
        { number := n, userId := u, status := statusNew, accrual := none,
          uploadedAt := now, accrualApplied := false } ∧
      (∃ lc, lookupA s1.queue n = some ⟨statusNew, lc⟩) ∧
      submitOrder s1 u n now2 = .ok (false, s1) ∧
      submitHTTPStatus (submitOrder s1 u n now2) = 200 ∧
      (∀ v, v ≠ u → submitOrder s1 v n now2 = .error .orderOwnedByAnother ∧
        submitHTTPStatus (submitOrder s1 v n now2) = 409) := by
  have hsub : submitOrder s u n now = .ok (true,
      upsertProcessing { s with orders := s.orders ++ [(n,
        { number := n, userId := u, status := statusNew, accrual := none,
          uploadedAt := now, accrualApplied := false })] } n statusNew) := by
    unfold submitOrder createOrder
    simp [htrim, hval, hnone]
  have horders1 : (upsertProcessing { s with orders := s.orders ++ [(n,
      { number := n, userId := u, status := statusNew, accrual := none,
        uploadedAt := now, accrualApplied := false })] } n statusNew).orders =
      s.orders ++ [(n,
      { number := n, userId := u, status := statusNew, accrual := none,
        uploadedAt := now, accrualApplied := false })] := by
    unfold upsertProcessing
    cases hq : lookupA s.queue n <;> rfl
  have hlook1 : lookupA (upsertProcessing { s with orders := s.orders ++ [(n,
      { number := n, userId := u, status := statusNew, accrual := none,
        uploadedAt := now, accrualApplied := false })] } n statusNew).orders n =
      some { number := n, userId := u, status := statusNew, accrual := none,
             uploadedAt := now, accrualApplied := false } := by
    rw [horders1, lookupA_append_of_none hnone]
    simp [lookupA_cons]
  have hresub : ∀ (w : Int) (t' : Nat),
      submitOrder (upsertProcessing { s with orders := s.orders ++ [(n,
        { number := n, userId := u, status := statusNew, accrual := none,
          uploadedAt := now, accrualApplied := false })] } n statusNew) w n t' =
      if u = w then .ok (false,
        upsertProcessing { s with orders := s.orders ++ [(n,
        { number := n, userId := u, status := statusNew, accrual := none,
          uploadedAt := now, accrualApplied := false })] } n statusNew)
      else .error .orderOwnedByAnother := by
    intro w t'
    unfold submitOrder
    simp [htrim, hval, hlook1]
  refine ⟨_, hsub, ?_, hlook1, ?_, ?_, ?_, ?_⟩
  · rw [hsub]
    rfl
  · unfold upsertProcessing
    cases hq : lookupA s.queue n with
    | none =>
      refine ⟨none, ?_⟩
      show lookupA (s.queue ++ [(n, ⟨statusNew, none⟩)]) n = _
      rw [lookupA_append_of_none hq]
      simp [lookupA_cons]
    | some e =>
      refine ⟨e.lastCheck, ?_⟩
      show lookupA (updA s.queue n fun x => { x with status := statusNew }) n = _
      rw [lookupA_updA_self, hq]
      rfl
  · rw [hresub u now2]
    simp
  · rw [hresub u now2]
    simp [submitHTTPStatus]
  · intro v hv
    rw [hresub v now2]
    have : ¬(u = v) := fun h => hv h.symm
    simp [this, submitHTTPStatus]

/-- C5 witness: from the empty store, user 1 submitting "18" gets
created=true, resubmitting gets created=false, and user 2 submitting the
same number is rejected with OrderOwnedByAnother. -/
theorem submitOrder_idempotent_ownership_witness :
    ∃ s1, submitOrder storeC5 1 ['1', '8'] 0 = .ok (true, s1) ∧
      submitOrder s1 1 ['1', '8'] 1 = .ok (false, s1) ∧
      submitOrder s1 2 ['1', '8'] 1 = .error .orderOwnedByAnother := by
  obtain ⟨s1, h1, _, _, _, h5, _, h7⟩ :=
    submitOrder_idempotent_ownership storeC5 1 ['1', '8'] 0 1 (by decide)
      (by decide) (by decide)
  exact ⟨s1, h1, h5, (h7 2 (by decide)).1⟩

/-! ## Claim C7: claiming the next queue entry -/

theorem pickMin_eq_none_iff (l : List (Str × QEntry)) :
    pickMin l = none ↔ ∀ p ∈ l, eligible p.2 = false := by
  induction l with
  | nil => simp [pickMin]
  | cons p rest ih =>
    cases he : eligible p.2 with
    | true =>
      have hsome : ∃ q, pickMin (p :: rest) = some q := by
        rw [pickMin, if_pos he]
        cases hr : pickMin rest with
        | none => exact ⟨p, rfl⟩
        | some q =>
          by_cases hk : checkKey p.2.lastCheck ≤ checkKey q.2.lastCheck
          · exact ⟨p, if_pos hk⟩
          · exact ⟨q, if_neg hk⟩
      obtain ⟨q, hq⟩ := hsome
      rw [hq]
      constructor
      · intro h
        cases h
      · intro h
        rw [h p (List.mem_cons_self p rest)] at he
        cases he
    | false =>
      rw [pickMin, if_neg (by simp [he]), ih]
      constructor
      · intro h r hr
        rcases List.mem_cons.mp hr with h1 | h1
        · rw [h1]
          exact he
        · exact h r h1
      · intro h r hr
        exact h r (List.mem_cons_of_mem p hr)

theorem pickMin_mem_eligible {l : List (Str × QEntry)} {q : Str × QEntry}
    (h : pickMin l = some q) : q ∈ l ∧ eligible q.2 = true := by
  induction l with
  | nil => cases h
  | cons p rest ih =>
    cases he : eligible p.2 with
    | true =>
      rw [pickMin, if_pos he] at h
      cases hr : pickMin rest with
      | none =>
        rw [hr] at h
        injection h with hpq
        subst hpq
        exact ⟨List.mem_cons_self p rest, he⟩
      | some q' =>
        rw [hr] at h
        dsimp only at h
        by_cases hk : checkKey p.2.lastCheck ≤ checkKey q'.2.lastCheck
        · rw [if_pos hk] at h
          injection h with hpq
          subst hpq
          exact ⟨List.mem_cons_self p rest, he⟩
        · rw [if_neg hk] at h
          injection h with hpq
          subst hpq
          obtain ⟨hm, helig⟩ := ih hr
          exact ⟨List.mem_cons_of_mem p hm, helig⟩
    | false =>
      rw [pickMin, if_neg (by simp [he])] at h
      obtain ⟨hm, helig⟩ := ih h
      exact ⟨List.mem_cons_of_mem p hm, helig⟩

theorem pickMin_minimal (l : List (Str × QEntry)) :
    ∀ q, pickMin l = some q →
      ∀ p ∈ l, eligible p.2 = true →
        checkKey q.2.lastCheck ≤ checkKey p.2.lastCheck := by
  induction l with
  | nil =>
    intro q h
    cases h
  | cons p rest ih =>
    intro q h r hr helig
    cases he : eligible p.2 with
    | true =>
      rw [pickMin, if_pos he] at h
      cases hpr : pickMin rest with
      | none =>
        rw [hpr] at h
        injection h with hpq
        subst hpq
        rcases List.mem_cons.mp hr with h1 | h1
        · rw [h1]
        · rw [pickMin_eq_none_iff] at hpr
          rw [hpr r h1] at helig
          cases helig
      | some q' =>
        rw [hpr] at h
        dsimp only at h
        by_cases hk : checkKey p.2.lastCheck ≤ checkKey q'.2.lastCheck
        · rw [if_pos hk] at h
          injection h with hpq
          subst hpq
          rcases List.mem_cons.mp hr with h1 | h1
          · rw [h1]
          · exact le_trans hk (ih q' hpr r h1 helig)
        · rw [if_neg hk] at h
          injection h with hpq
          subst hpq
          rcases List.mem_cons.mp hr with h1 | h1
          · rw [h1]
            exact le_of_lt (lt_of_not_le hk)
          · exact ih q' hpr r h1 helig
    | false =>
      rw [pickMin, if_neg (by simp [he])] at h
      rcases List.mem_cons.mp hr with h1 | h1
      · rw [h1] at helig
        rw [helig] at he
        cases he
      · exact ih q h r h1 helig

/-- C7: `claim_next` reports NoItems exactly when no queue entry has
status NEW or PROCESSING; otherwise it returns the number of an eligible
entry whose coalesced `last_check` is smallest (NULL as oldest) and, in
the same atomic step, sets that entry to PROCESSING with `last_check =
now`, touching no other queue row and no other table. -/
theorem claimNextForProcessing_spec (s : Store) (now : Nat)
    (hnd : (s.queue.map Prod.fst).Nodup) :
    (claimNextForProcessing s now = .error .noQueueItems ↔
      ∀ p ∈ s.queue, eligible p.2 = false) ∧
    (∀ n s1, claimNextForProcessing s now = .ok (n, s1) →
      ∃ e, lookupA s.queue n = some e ∧ eligible e = true ∧
        (∀ p ∈ s.queue, eligible p.2 = true →
          checkKey e.lastCheck ≤ checkKey p.2.lastCheck) ∧
        lookupA s1.queue n = some ⟨statusProcessing, some now⟩ ∧
        (∀ m, m ≠ n → lookupA s1.queue m = lookupA s.queue m) ∧
        s1.orders = s.orders ∧ s1.balances = s.balances ∧
        s1.withdrawals = s.withdrawals) := by
  constructor
  · cases hp : pickMin s.queue with
    | none =>
      unfold claimNextForProcessing
      rw [hp]
      simp only [true_iff]
      exact (pickMin_eq_none_iff s.queue).mp hp
    | some q =>
      unfold claimNextForProcessing
      rw [hp]
      constructor
      · intro h
        cases h
      · intro h
        obtain ⟨hm, helig⟩ := pickMin_mem_eligible hp
        rw [h q hm] at helig
        cases helig
  · intro n s1 h
    cases hp : pickMin s.queue with
    | none =>
      unfold claimNextForProcessing at h
      rw [hp] at h
      cases h
    | some q =>
      unfold claimNextForProcessing at h
      rw [hp] at h
      injection h with h2
      injection h2 with hn hs1
      subst hn
      subst hs1
      obtain ⟨hm, helig⟩ := pickMin_mem_eligible hp
      have hlk : lookupA s.queue q.1 = some q.2 := lookupA_mem_of_nodup hm hnd
      refine ⟨q.2, hlk, helig, ?_, ?_, ?_, rfl, rfl, rfl⟩
      · exact fun p hpm he2 => pickMin_minimal s.queue q hp p hpm he2
      · show lookupA (updA s.queue q.1 fun _ => ⟨statusProcessing, some now⟩) q.1 = _
        rw [lookupA_updA_self, hlk]
        rfl
      · intro m hm2
        show lookupA (updA s.queue q.1 fun _ => ⟨statusProcessing, some now⟩) m = _
        exact lookupA_updA_ne s.queue _ hm2

/-- C7 witness: claiming from `storeC7` at time 9 picks "2" (NULL
`last_check` sorts oldest), a NEW-or-PROCESSING entry of minimal key,
and rewrites it to PROCESSING with `last_check = 9`. -/
theorem claimNextForProcessing_spec_witness :
    ∃ e, lookupA storeC7.queue ['2'] = some e ∧ eligible e = true ∧
      lookupA (updateProcessingStatus storeC7 ['2'] statusProcessing 9).queue
        ['2'] = some ⟨statusProcessing, some 9⟩ := by
  obtain ⟨e, h1, h2, _, h4, _⟩ :=
    (claimNextForProcessing_spec storeC7 9 (by decide)).2 ['2']
      (updateProcessingStatus storeC7 ['2'] statusProcessing 9) (by rfl)
  exact ⟨e, h1, h2, h4⟩

/-! ## Shape lemmas for the transition system -/

theorem lookupA_append_single_ne {α β : Type} [DecidableEq α]
    (l : List (α × β)) {k m : α} (v : β) (h : m ≠ k) :
    lookupA (l ++ [(k, v)]) m = lookupA l m := by
  cases hl : lookupA l m with
  | some w => exact lookupA_append_left hl _
  | none =>
    rw [lookupA_append_of_none hl]
    simp [lookupA_cons, Ne.symm h]

theorem lookupA_updA_some {α β : Type} [DecidableEq α]
    {l : List (α × β)} {k m : α} {f : β → β} {e : β}
    (h : lookupA (updA l k f) m = some e) : ∃ w, lookupA l m = some w := by
  by_cases hk : m = k
  · subst hk
    rw [lookupA_updA_self] at h
    cases hl : lookupA l m with
    | none =>
      rw [hl] at h
      cases h
    | some w => exact ⟨w, rfl⟩
  · rw [lookupA_updA_ne l f hk] at h
    exact ⟨e, h⟩

theorem upsertProcessing_frame (s : Store) (n : Str) (st : String) :
    (upsertProcessing s n st).orders = s.orders ∧
    (upsertProcessing s n st).balances = s.balances := by
  unfold upsertProcessing
  cases lookupA s.queue n <;> exact ⟨rfl, rfl⟩

theorem upsertProcessing_queue_ne (s : Store) (n : Str) (st : String)
    {m : Str} (hm : m ≠ n) :
    lookupA (upsertProcessing s n st).queue m = lookupA s.queue m := by
  unfold upsertProcessing
  cases hq : lookupA s.queue n with
  | none => exact lookupA_append_single_ne s.queue _ hm
  | some e =>
    dsimp only
    exact lookupA_updA_ne s.queue _ hm

theorem claimNextForProcessing_ok_shape {s : Store} {now : Nat} {n : Str}
    {s1 : Store} (h : claimNextForProcessing s now = .ok (n, s1)) :
    s1 = updateProcessingStatus s n statusProcessing now := by
  unfold claimNextForProcessing at h
  cases hp : pickMin s.queue with
  | none =>
    rw [hp] at h
    exact Except.noConfusion h
  | some q =>
    rw [hp] at h
    dsimp only at h
    injection h with h2
    injection h2 with hn hs
    rw [hn] at hs
    exact hs.symm

theorem withdraw_ok_shape {s : Store} {u : Int} {o : Str} {a : ℚ} {t : Nat}
    {s1 : Store} (h : withdraw s u o a t = .ok s1) :
    ¬getQ s.balances u < a ∧
    s1 = { s with
      balances := setA s.balances u (getQ s.balances u - a),
      withdrawnTotals :=
        setA s.withdrawnTotals u (getQ s.withdrawnTotals u + a),
      withdrawals := s.withdrawals ++ [⟨u, o, a, t⟩] } := by
  unfold withdraw at h
  by_cases hm : u ∈ s.users
  · rw [if_pos hm] at h
    by_cases hba : getQ s.balances u < a
    · rw [if_pos hba] at h
      exact Except.noConfusion h
    · rw [if_neg hba] at h
      injection h with hs
      exact ⟨hba, hs.symm⟩
  · rw [if_neg hm] at h
    exact Except.noConfusion h

theorem applyOrderAccrual_ok_shape {s : Store} {n : Str} {a : ℚ} {b : Bool}
    {s1 : Store} (h : applyOrderAccrual s n a = .ok (b, s1)) :
    ∃ o, lookupA s.orders n = some o ∧
      ((o.accrualApplied = true ∧ b = false ∧
        s1 = deleteProcessingEntry s n) ∨
       (o.accrualApplied = false ∧ b = true ∧
        s1 = deleteProcessingEntry { s with
          orders := updA s.orders n fun x => { x with
            status := statusProcessed, accrual := some a,
            accrualApplied := true },
          balances :=
            setA s.balances o.userId (getQ s.balances o.userId + a) } n)) := by
  unfold applyOrderAccrual at h
  cases ho : lookupA s.orders n with
  | none =>
    rw [ho] at h
    exact Except.noConfusion h
  | some o =>
    rw [ho] at h
    dsimp only at h
    by_cases happ : o.accrualApplied = true
    · rw [if_pos happ] at h
      injection h with h2
      injection h2 with hb hs
      exact ⟨o, rfl, Or.inl ⟨happ, hb.symm, hs.symm⟩⟩
    · rw [if_neg happ] at h
      injection h with h2
      injection h2 with hb hs
      exact ⟨o, rfl,
        Or.inr ⟨Bool.eq_false_iff.mpr happ, hb.symm, hs.symm⟩⟩

theorem submitOrder_ok_shape {s : Store} {u : Int} {n : Str} {t : Nat}
    {b : Bool} {s1 : Store} (h : submitOrder s u n t = .ok (b, s1)) :
    (b = false ∧ s1 = s) ∨
    (b = true ∧ lookupA s.orders (trimSpace n) = none ∧
      s1 = upsertProcessing { s with orders := s.orders ++ [(trimSpace n,
        { number := trimSpace n, userId := u, status := statusNew,
          accrual := none, uploadedAt := t, accrualApplied := false })] }
        (trimSpace n) statusNew) := by
  unfold submitOrder at h
  by_cases hval : validateOrderNumber (trimSpace n) = true
  · rw [if_pos hval] at h
    cases hlk : lookupA s.orders (trimSpace n) with
    | some existing =>
      rw [hlk] at h
      dsimp only at h
      by_cases hown : existing.userId = u
      · rw [if_pos hown] at h
        injection h with h2
        injection h2 with hb hs
        exact Or.inl ⟨hb.symm, hs.symm⟩
      · rw [if_neg hown] at h
        exact Except.noConfusion h
    | none =>
      rw [hlk] at h
      dsimp only at h
      unfold createOrder at h
      rw [hlk] at h
      dsimp only at h
      injection h with h2
      injection h2 with hb hs
      exact Or.inr ⟨hb.symm, rfl, hs.symm⟩
  · rw [if_neg hval] at h
    exact Except.noConfusion h

/-- Every store a `processNumber` invocation can produce, by branch. -/
theorem processNumber_shape (s : Store) (n : Str) (r : ScoreResult) (t : Nat) :
    processNumber s n r t = updateProcessingStatus s n statusProcessing t ∨
    processNumber s n r t = s ∨
    processNumber s n r t = deleteProcessingEntry s n ∨
    (∃ (st0 : String) (a : ℚ) (o : Order),
      r = .ok200 st0 (some a) ∧ lookupA s.orders n = some o ∧
      o.accrualApplied = false ∧
      processNumber s n r t = deleteProcessingEntry { s with
        orders := updA s.orders n fun x => { x with
          status := statusProcessed, accrual := some a,
          accrualApplied := true },
        balances :=
          setA s.balances o.userId (getQ s.balances o.userId + a) } n) ∨
    (∃ status : String,
      processNumber s n r t =
        deleteProcessingEntry (updateOrderStatusPG s n status none) n) ∨
    (∃ (status : String) (acc : Option ℚ),
      status ≠ statusProcessed ∧ status ≠ statusInvalid ∧
      processNumber s n r t =
        updateProcessingStatus (updateOrderStatusPG s n status acc) n
          statusProcessing t) := by
  cases r with
  | transportErr => exact Or.inl rfl
  | httpCode c => exact Or.inl rfl
  | ok200 rawStatus accrual =>
    unfold processNumber
    dsimp only
    by_cases hp :
        (if asciiUpper rawStatus = "" then statusProcessing
         else asciiUpper rawStatus) = statusProcessed
    · rw [if_pos hp]
      cases accrual with
      | some a =>
        dsimp only
        cases happ : applyOrderAccrual s n a with
        | error e =>
          dsimp only
          exact Or.inr (Or.inl rfl)
        | ok p =>
          obtain ⟨b, s1⟩ := p
          dsimp only
          obtain ⟨o, ho, hcase⟩ := applyOrderAccrual_ok_shape happ
          rcases hcase with ⟨_h1, _, hs⟩ | ⟨h1, _, hs⟩
          · exact Or.inr (Or.inr (Or.inl hs))
          · exact Or.inr (Or.inr (Or.inr (Or.inl
              ⟨rawStatus, a, o, rfl, ho, h1, hs⟩)))
      | none =>
        dsimp only
        rw [hp]
        exact Or.inr (Or.inr (Or.inr (Or.inr (Or.inl ⟨statusProcessed, rfl⟩))))
    · rw [if_neg hp]
      by_cases hi :
          (if asciiUpper rawStatus = "" then statusProcessing
           else asciiUpper rawStatus) = statusInvalid
      · rw [if_pos hi, hi]
        exact Or.inr (Or.inr (Or.inr (Or.inr (Or.inl ⟨statusInvalid, rfl⟩))))
      · rw [if_neg hi]
        exact Or.inr (Or.inr (Or.inr (Or.inr (Or.inr
          ⟨_, accrual, hp, hi, rfl⟩))))

/-! ## Invariant preservation over the transition system -/

theorem balInv_of_balances_eq {s s1 : Store} (h : s1.balances = s.balances)
    (hb : BalInv s) : BalInv s1 := fun u => h ▸ hb u

theorem qInv_updateProcessingStatus (s : Store) (n : Str) (st : String)
    (t : Nat) (hq : QInv s) : QInv (updateProcessingStatus s n st t) := by
  intro m e hqe o ho
  simp only [updateProcessingStatus] at hqe ho
  obtain ⟨w, hw⟩ := lookupA_updA_some hqe
  exact hq m w hw o ho

theorem qInv_deleteProcessingEntry (s : Store) (n : Str) (hq : QInv s) :
    QInv (deleteProcessingEntry s n) := by
  intro m e hqe o ho
  simp only [deleteProcessingEntry] at hqe ho
  by_cases hmn : m = n
  · subst hmn
    rw [lookupA_eraseA_self] at hqe
    cases hqe
  · rw [lookupA_eraseA_ne s.queue hmn] at hqe
    exact hq m e hqe o ho

theorem balInv_applyOp (s : Store) (op : SysOp) (hb : BalInv s)
    (hnn : respNonNeg op) : BalInv (applyOp s op) := by
  cases op with
  | submitOp u n t =>
    unfold applyOp
    dsimp only
    cases hsub : submitOrder s u n t with
    | error e =>
      dsimp only
      exact hb
    | ok p =>
      obtain ⟨b, s1⟩ := p
      dsimp only
      rcases submitOrder_ok_shape hsub with ⟨_, rfl⟩ | ⟨_, _, rfl⟩
      · exact hb
      · exact balInv_of_balances_eq (upsertProcessing_frame _ _ _).2 hb
  | claimOp t =>
    unfold applyOp
    dsimp only
    cases hc : claimNextForProcessing s t with
    | error e =>
      dsimp only
      exact hb
    | ok p =>
      obtain ⟨n, s1⟩ := p
      dsimp only
      rw [claimNextForProcessing_ok_shape hc]
      exact balInv_of_balances_eq rfl hb
  | processOp n r t =>
    unfold applyOp
    dsimp only
    rcases processNumber_shape s n r t with hshape | hshape | hshape |
      ⟨st0, a, o0, hr, ho0, hna, hshape⟩ | ⟨status, hshape⟩ |
      ⟨status, acc, hnp, hni, hshape⟩
    · rw [hshape]
      exact balInv_of_balances_eq rfl hb
    · rw [hshape]
      exact hb
    · rw [hshape]
      exact balInv_of_balances_eq rfl hb
    · rw [hshape]
      subst hr
      dsimp only [respNonNeg] at hnn
      intro v
      show 0 ≤ getQ (setA s.balances o0.userId
        (getQ s.balances o0.userId + a)) v
      by_cases hv : v = o0.userId
      · subst hv
        rw [getQ_setA_self]
        exact add_nonneg (hb _) hnn
      · rw [getQ_setA_ne _ _ hv]
        exact hb v
    · rw [hshape]
      exact balInv_of_balances_eq rfl hb
    · rw [hshape]
      exact balInv_of_balances_eq rfl hb
  | withdrawOp u o a t =>
    unfold applyOp
    dsimp only
    cases hw : withdraw s u o a t with
    | error e =>
      dsimp only
      exact hb
    | ok s1 =>
      dsimp only
      obtain ⟨hba, rfl⟩ := withdraw_ok_shape hw
      intro v
      show 0 ≤ getQ (setA s.balances u (getQ s.balances u - a)) v
      by_cases hv : v = u
      · subst hv
        rw [getQ_setA_self]
        rw [not_lt] at hba
        exact sub_nonneg.mpr hba
      · rw [getQ_setA_ne _ _ hv]
        exact hb v

theorem qInv_applyOp (s : Store) (op : SysOp) (hq : QInv s) :
    QInv (applyOp s op) := by
  cases op with
  | submitOp u n t =>
    unfold applyOp
    dsimp only
    cases hsub : submitOrder s u n t with
    | error e =>
      dsimp only
      exact hq
    | ok p =>
      obtain ⟨b, s1⟩ := p
      dsimp only
      rcases submitOrder_ok_shape hsub with ⟨_, rfl⟩ | ⟨_, hnone, rfl⟩
      · exact hq
      · intro m e hqe o ho
        rw [(upsertProcessing_frame _ _ _).1] at ho
        by_cases hmn : m = trimSpace n
        · subst hmn
          rw [lookupA_append_of_none hnone, lookupA_cons, if_pos rfl] at ho
          injection ho with ho2
          subst ho2
          refine ⟨?_, ?_⟩
          · show statusNew ≠ statusInvalid
            decide
          · show ¬(statusNew = statusProcessed ∧ false = true)
            decide
        · rw [lookupA_append_single_ne s.orders _ hmn] at ho
          rw [upsertProcessing_queue_ne _ _ _ hmn] at hqe
          exact hq m e hqe o ho
  | claimOp t =>
    unfold applyOp
    dsimp only
    cases hc : claimNextForProcessing s t with
    | error e =>
      dsimp only
      exact hq
    | ok p =>
      obtain ⟨n, s1⟩ := p
      dsimp only
      rw [claimNextForProcessing_ok_shape hc]
      exact qInv_updateProcessingStatus s n statusProcessing t hq
  | processOp n r t =>
    unfold applyOp
    dsimp only
    rcases processNumber_shape s n r t with hshape | hshape | hshape |
      ⟨st0, a, o0, hr, ho0, hna, hshape⟩ | ⟨status, hshape⟩ |
      ⟨status, acc, hnp, hni, hshape⟩
    · rw [hshape]
      exact qInv_updateProcessingStatus s n statusProcessing t hq
    · rw [hshape]
      exact hq
    · rw [hshape]
      exact qInv_deleteProcessingEntry s n hq
    · rw [hshape]
      intro m e hqe o ho
      simp only [deleteProcessingEntry] at hqe ho
      by_cases hmn : m = n
      · subst hmn
        rw [lookupA_eraseA_self] at hqe
        cases hqe
      · rw [lookupA_eraseA_ne _ hmn] at hqe
        rw [lookupA_updA_ne s.orders _ hmn] at ho
        exact hq m e hqe o ho
    · rw [hshape]
      intro m e hqe o ho
      simp only [deleteProcessingEntry, updateOrderStatusPG] at hqe ho
      by_cases hmn : m = n
      · subst hmn
        rw [lookupA_eraseA_self] at hqe
        cases hqe
      · rw [lookupA_eraseA_ne _ hmn] at hqe
        rw [lookupA_updA_ne s.orders _ hmn] at ho
        exact hq m e hqe o ho
    · rw [hshape]
      intro m e hqe o ho
      simp only [updateProcessingStatus, updateOrderStatusPG] at hqe ho
      by_cases hmn : m = n
      · subst hmn
        rw [lookupA_updA_self] at ho
        cases hbase : lookupA s.orders m with
        | none =>
          rw [hbase] at ho
          cases ho
        | some o0 =>
          rw [hbase] at ho
          cases acc with
          | some v =>
            dsimp only at ho
            injection ho with ho2
            subst ho2
            exact ⟨hni, fun hc => hnp hc.1⟩
          | none =>
            dsimp only at ho
            injection ho with ho2
            subst ho2
            exact ⟨hni, fun hc => hnp hc.1⟩
      · obtain ⟨w, hw⟩ := lookupA_updA_some hqe
        rw [lookupA_updA_ne s.orders _ hmn] at ho
        exact hq m w hw o ho
  | withdrawOp u o a t =>
    unfold applyOp
    dsimp only
    cases hw : withdraw s u o a t with
    | error e =>
      dsimp only
      exact hq
    | ok s1 =>
      dsimp only
      obtain ⟨hba, rfl⟩ := withdraw_ok_shape hw
      intro m e hqe o2 ho
      exact hq m e hqe o2 ho

/-! ## Claim C1: balances stay nonnegative -/

/-- C1 (amended): starting from nonnegative balances, after every
committed Store transaction — order submissions, queue claims,
worker-applied accruals from 200-PROCESSED responses whose accrual
amounts are nonnegative, and withdrawals — every user's balance is still
nonnegative.  (Without the nonnegativity proviso the property fails: see
the counterexample.) -/
theorem balance_nonneg_invariant (s : Store) (ops : List SysOp)
    (hb : BalInv s) (hnn : ∀ op ∈ ops, respNonNeg op) :
    BalInv (runOps s ops) := by
  induction ops generalizing s with
  | nil => exact hb
  | cons op rest ih =>
    show BalInv (runOps (applyOp s op) rest)
    exact ih (applyOp s op)
      (balInv_applyOp s op hb (hnn op (List.mem_cons_self op rest)))
      (fun op2 h2 => hnn op2 (List.mem_cons_of_mem op h2))

/-- C1 witness: user 1 starts with balance 100; after submitting "18",
crediting accrual 5 and withdrawing 30, every balance is nonnegative. -/
theorem balance_nonneg_invariant_witness :
    BalInv (runOps storeC4 [SysOp.submitOp 1 ['1', '8'] 0,
      SysOp.processOp ['1', '8'] (.ok200 "PROCESSED" (some 5)) 1,
      SysOp.withdrawOp 1 ['9'] 30 2]) := by
  apply balance_nonneg_invariant
  · intro u
    by_cases h : u = 1
    · subst h
      decide
    · simp [getQ, storeC4, lookupA, Ne.symm h]
  · intro op hop
    fin_cases hop <;> simp [respNonNeg]

/-- C1 counterexample: a 200-PROCESSED scoring response with accrual -5
for a freshly submitted order drives the owner's balance to -5, so with
truly arbitrary accrual amounts the balance invariant fails. -/
theorem balance_negative_counterexample :
    ¬BalInv (runOps storeC5 [SysOp.submitOp 1 ['1', '8'] 0,
      SysOp.processOp ['1', '8'] (.ok200 "PROCESSED" (some (-5))) 1]) := by
  intro h
  have h1 := h 1
  have hev : getQ (runOps storeC5 [SysOp.submitOp 1 ['1', '8'] 0,
      SysOp.processOp ['1', '8'] (.ok200 "PROCESSED" (some (-5))) 1]).balances
      1 = getQ ([] : List (Int × ℚ)) 1 + (-5) :=
    getQ_setA_self ([] : List (Int × ℚ)) 1 _
  rw [hev] at h1
  have hz : getQ ([] : List (Int × ℚ)) 1 = 0 := rfl
  rw [hz] at h1
  norm_num at h1

/-! ## Claim C8: no queue entry for terminal orders -/

/-- C8 (amended): at every boundary between committed service-level
operations (order submission, queue claim, one complete worker handling
of a scoring response, withdrawal), no processing-queue row points at an
order with status INVALID, nor at a PROCESSED order whose accrual has
been applied.  The claim's stronger reading — at every point between
individual store operations — fails inside the worker's INVALID
handling: see the counterexample. -/
theorem queue_terminal_invariant (s : Store) (ops : List SysOp)
    (hq : QInv s) : QInv (runOps s ops) := by
  induction ops generalizing s with
  | nil => exact hq
  | cons op rest ih =>
    show QInv (runOps (applyOp s op) rest)
    exact ih (applyOp s op) (qInv_applyOp s op hq)

/-- C8 witness: after submitting "18" and processing a 200-INVALID
response for it (and a 200-PROCESSED with accrual for a second order),
no queue row points at a terminal order. -/
theorem queue_terminal_invariant_witness :
    QInv (runOps storeC5 [SysOp.submitOp 1 ['1', '8'] 0,
      SysOp.submitOp 1 ['7', '9', '9', '2', '7', '3', '9', '8', '7', '1', '3'] 1,
      SysOp.processOp ['1', '8'] (.ok200 "INVALID" none) 2,
      SysOp.processOp ['7', '9', '9', '2', '7', '3', '9', '8', '7', '1', '3']
        (.ok200 "PROCESSED" (some 7)) 3]) := by
  apply queue_terminal_invariant
  intro m e hqe o ho
  simp [storeC5, lookupA] at hqe

/-- C8 counterexample: inside `processNumber`, between the
`UpdateOrderStatus(number, INVALID)` store call and the following
`DeleteProcessingEntry` store call, the store passes through a state in
which the order's status is already INVALID while its processing-queue
row still exists — refuting the invariant read at every point between
store operations. -/
theorem queue_invalid_midstate_counterexample :
    ∃ sMid ∈ processNumberStates (applyOp storeC5 (.submitOp 1 ['1', '8'] 0))
      ['1', '8'] (.ok200 "INVALID" none) 3, ¬QInv sMid := by
  refine ⟨updateOrderStatusPG (applyOp storeC5 (.submitOp 1 ['1', '8'] 0))
    ['1', '8'] statusInvalid none, ?_, ?_⟩
  · decide
  · intro h
    have h2 := h ['1', '8'] ⟨statusNew, none⟩ (by decide)
      { number := ['1', '8'], userId := 1, status := statusInvalid,
        accrual := none, uploadedAt := 0, accrualApplied := false } (by decide)
    exact h2.1 rfl

end Gophermart
